import Mathlib

/-!
Verification of the RPC client in src/src/communication/RpcClient.cpp.

The file shallowly embeds the deadline-driven expiration subsystem and the
request/response correlation logic of the RPC client:

* `OnceFlag` / `callOnce` model the std::once_flag completion guard that
  funnels every delivery path to the caller's continuation.
* `wrapper` models the response-filtering lambda built in
  RpcClient::invokeMethod (lines 119-133).
* `invokeMethod` models the registration / send / arm sequence of
  RpcClient::invokeMethod (lines 111-163).
* `PendingRequest`, `popMin`, `scrubSplit`, `doWork` and the `Cmd` /
  `RunState` machinery model the ScrubablePendingQueue and ExpireWorker
  (lines 216-354).  std::priority_queue with std::greater and
  PendingRequest::operator> comparing when_expire is a min-heap on
  when_expire; it is modelled by its contents, with `popMin` extracting a
  waiter of minimal deadline.  Times are Nat (steady_clock ticks); UUIDs,
  listener handles and expire continuations are identified by Nat tokens,
  with the events a run emits recording which continuation was invoked and
  with which terminal status.
-/

/-- Model of v1::UCode (the subset this translation needs). -/
inductive UCode
  | OK
  | CANCELLED
  | DEADLINE_EXCEEDED
  | UNKNOWN
  | INTERNAL
  deriving DecidableEq, Repr

/-- Model of v1::UStatus : a code plus a human-readable message. -/
structure UStatus where
  code : UCode
  message : String
  deriving DecidableEq, Repr

/-- The status built in ExpireWorker::doWork (lines 326-331):
fired when a pending request reaches its deadline. -/
def expireReason : UStatus :=
  { code := UCode.DEADLINE_EXCEEDED
    message := "Request expired before response received" }

/-- The status built in ExpireWorker::scrub (lines 292-297):
fired when the owning RpcClient instance is destroyed. -/
def discardReason : UStatus :=
  { code := UCode.CANCELLED
    message := "RpcClient for this request was discarded" }

/-- The status built in ScrubablePendingQueue's destructor (lines 221-226):
fired when the whole queue is torn down. -/
def shutdownReason : UStatus :=
  { code := UCode.CANCELLED
    message := "ExpireWorker shutting down" }

/-- Model of v1::UAttributes: the fields invokeMethod's wrapper inspects. -/
structure UAttributes where
  id : Nat
  reqid : Nat
  commstatus : UCode
  deriving DecidableEq, Repr

/-- Model of v1::UMessage (payload is irrelevant to the claims). -/
structure UMessage where
  attributes : UAttributes
  deriving DecidableEq, Repr

/-- Model of transport::UTransport::ListenHandle: an ownership token whose
release unregisters the listener. -/
structure ListenHandle where
  token : Nat
  deriving DecidableEq, Repr

/-- The reason delivered on the error path: RpcClient::Status is
std::variant of v1::UStatus and Commstatus (a v1::UCode). -/
inductive Reason
  | uStatus (s : UStatus)
  | commstatus (c : UCode)
  deriving DecidableEq, Repr

/-- What the caller's continuation receives: RpcClient::MessageOrStatus is
Expected of UMessage and Status. -/
inductive MessageOrStatus
  | message (m : UMessage)
  | unexpected (r : Reason)
  deriving DecidableEq, Repr

/-- Model of the std::once_flag `callback_once` created per invocation
(line 115): true once some delivery path has claimed the continuation. -/
structure OnceFlag where
  called : Bool
  deriving DecidableEq, Repr

/-- Model of std::call_once on the per-invocation flag: the first caller's
payload reaches the continuation (returned as some), every later attempt
is absorbed (none). -/
def callOnce (flag : OnceFlag) (out : MessageOrStatus) :
    OnceFlag × Option MessageOrStatus :=
  if flag.called then (flag, none) else ({ called := true }, some out)

/-- Model of the response-filtering `wrapper` lambda registered with the
transport (RpcClient.cpp lines 119-133): drop messages whose reqid does
not equal the outgoing request's id; on a match, deliver the message on
commstatus OK and deliver the commstatus as an error otherwise, both
through the once flag. -/
def wrapper (flag : OnceFlag) (reqid : Nat) (m : UMessage) :
    OnceFlag × Option MessageOrStatus :=
  if m.attributes.reqid = reqid then
    if m.attributes.commstatus = UCode.OK then
      callOnce flag (MessageOrStatus.message m)
    else
      callOnce flag
        (MessageOrStatus.unexpected (Reason.commstatus m.attributes.commstatus))
  else
    (flag, none)

/-- A delivery path firing for one invocation.  `response` is the
registered wrapper seeing a message whose reqid matches; the remaining
constructors are the calls to the `expire` lambda: registration failure
and send failure inside invokeMethod, deadline expiry in
ExpireWorker::doWork, scoped discard in ExpireWorker::scrub, and queue
shutdown in the ScrubablePendingQueue destructor. -/
inductive Attempt
  | response (m : UMessage)
  | regError (e : UStatus)
  | sendError (s : UStatus)
  | timeout
  | discard
  | shutdown
  deriving DecidableEq, Repr

/-- The payload each delivery path would hand to the continuation,
mirroring the branches of the wrapper and `expire` lambdas. -/
def outcomeOf : Attempt → MessageOrStatus
  | Attempt.response m =>
      if m.attributes.commstatus = UCode.OK then MessageOrStatus.message m
      else MessageOrStatus.unexpected (Reason.commstatus m.attributes.commstatus)
  | Attempt.regError e => MessageOrStatus.unexpected (Reason.uStatus e)
  | Attempt.sendError s => MessageOrStatus.unexpected (Reason.uStatus s)
  | Attempt.timeout => MessageOrStatus.unexpected (Reason.uStatus expireReason)
  | Attempt.discard => MessageOrStatus.unexpected (Reason.uStatus discardReason)
  | Attempt.shutdown => MessageOrStatus.unexpected (Reason.uStatus shutdownReason)

/-- Run a sequence of delivery paths through the shared once flag,
collecting the continuation invocations that actually happen. -/
def runDeliveries (flag : OnceFlag) : List Attempt → List MessageOrStatus
  | [] => []
  | a :: rest =>
    match callOnce flag (outcomeOf a) with
    | (flag1, some out) => out :: runDeliveries flag1 rest
    | (flag1, none) => runDeliveries flag1 rest

/-- Model of detail::PendingRequest (RpcClient.cpp lines 24-31): one
outstanding request held by the deadline queue.  `expire` is the handed-off
continuation, identified by a token of type α (the real closure calls the
caller's callback through the shared once flag). -/
structure PendingRequest (α : Type) where
  when_expire : Nat
  response_listener : ListenHandle
  expire : α
  instance_id : Nat
  deriving DecidableEq, Repr

/-- The observable result of one call to RpcClient::invokeMethod
(lines 111-163): which continuation invocations happened immediately,
whether transport send was invoked, which waiter (if any) was handed to
the expiration service, and the once flag's state afterwards. -/
structure InvokeOutcome where
  delivered : List MessageOrStatus
  sent : Bool
  enqueued : Option (PendingRequest Nat)
  flagAfter : OnceFlag
  deriving DecidableEq, Repr

/-- Model of the body of RpcClient::invokeMethod past the lambda setup
(lines 148-162).  `regResult` is what transport_->registerListener
returned; `sendStatus` is what transport_->send would return; `cbTok`
identifies the `expire` lambda built for this invocation.  On a
registration error the error is delivered through the once flag, nothing
is sent and no waiter is enqueued.  Otherwise the request is sent; a
non-OK send status is delivered through the once flag; and in both send
cases a waiter carrying the listener handle and the expire continuation
is enqueued with deadline now + ttl. -/
def invokeMethod (regResult : Except UStatus ListenHandle)
    (sendStatus : UStatus) (now ttl instanceId cbTok : Nat) : InvokeOutcome :=
  let flag0 : OnceFlag := { called := false }
  match regResult with
  | Except.error e =>
    match callOnce flag0 (MessageOrStatus.unexpected (Reason.uStatus e)) with
    | (flag1, out) =>
      { delivered := out.toList, sent := false, enqueued := none
        flagAfter := flag1 }
  | Except.ok handle =>
    match
      (if sendStatus.code = UCode.OK then (flag0, none)
       else callOnce flag0
         (MessageOrStatus.unexpected (Reason.uStatus sendStatus))) with
    | (flag1, out) =>
      { delivered := out.toList, sent := true
        enqueued := some
          { when_expire := now + ttl, response_listener := handle
            expire := cbTok, instance_id := instanceId }
        flagAfter := flag1 }

/-- Extraction of a minimal-deadline waiter, modelling top()/pop() of the
std::priority_queue (a min-heap on when_expire via PendingRequest's
greater-than comparison, lines 216-218): returns a waiter whose
when_expire is minimal together with the remaining contents.  Ties are
broken arbitrarily by the heap; this model keeps the earliest-listed
one. -/
def popMin {α : Type} : List (PendingRequest α) →
    Option (PendingRequest α × List (PendingRequest α))
  | [] => none
  | p :: rest =>
    match popMin rest with
    | none => some (p, [])
    | some (q, rest1) =>
      if p.when_expire ≤ q.when_expire then some (p, rest)
      else some (q, p :: rest1)

/-- The order in which ExpireWorker::doWork (lines 304-354) retires
waiters when no response and no cancellation ever removes them: each loop
iteration waits until the earliest deadline has passed, then pops the top
(minimal-deadline) waiter and fires its expire continuation.  Since time
eventually passes every deadline, the full firing order is the successive
minima of the queue. -/
def doWorkAux {α : Type} : Nat → List (PendingRequest α) →
    List (PendingRequest α)
  | 0, _ => []
  | n + 1, q =>
    match popMin q with
    | none => []
    | some (p, rest) => p :: doWorkAux n rest

/-- Entry point for the drain: enough fuel for the whole queue. -/
def doWork {α : Type} (q : List (PendingRequest α)) :
    List (PendingRequest α) :=
  doWorkAux q.length q

/-- Model of ScrubablePendingQueue::scrub's std::remove_if pass
(lines 239-248): split the underlying container into the waiters whose
instance_id matches (collected in traversal order, to be expired) and the
waiters that stay (kept in their original relative order). -/
def scrubSplit {α : Type} (instanceId : Nat) :
    List (PendingRequest α) →
    List (PendingRequest α) × List (PendingRequest α)
  | [] => ([], [])
  | p :: rest =>
    match scrubSplit instanceId rest with
    | (matched, kept) =>
      if p.instance_id = instanceId then (p :: matched, kept)
      else (matched, p :: kept)

/-- Model of ExpireWorker::scrub (lines 283-302): remove this instance's
waiters from the queue (releasing their listener handles with the erased
entries), then invoke each collected expire continuation with the
"discarded" status.  Returns the emitted (continuation, status) events and
the remaining queue. -/
def scrub {α : Type} (instanceId : Nat) (q : List (PendingRequest α)) :
    List (α × UStatus) × List (PendingRequest α) :=
  match scrubSplit instanceId q with
  | (matched, kept) =>
    (matched.map (fun p => (p.expire, discardReason)), kept)

/-- Model of the ScrubablePendingQueue destructor (lines 220-231): every
waiter still in the container has its expire continuation invoked with
the "shutting down" status before deallocation. -/
def queueDtorEvents {α : Type} (q : List (PendingRequest α)) :
    List (α × UStatus) :=
  q.map (fun p => (p.expire, shutdownReason))

/-- One externally visible operation on the shared deadline queue:
a doWork iteration at time `now` that retires the top waiter when it is
due, a scoped scrub for one instance, or a matching response arriving at
the registered wrapper (which only calls the continuation: the wrapper
lambda, lines 119-133, has no access to the queue). -/
inductive Cmd
  | expireStep (now : Nat)
  | scrubFor (instanceId : Nat)
  | response
  deriving DecidableEq, Repr

/-- Which waiters one command removes from the queue, and the queue that
remains.  expireStep follows doWork (lines 309-321): pop the top waiter
only if its deadline has passed; scrubFor follows scrub; response leaves
the queue untouched. -/
def stepOutcome {α : Type} (q : List (PendingRequest α)) :
    Cmd → List (PendingRequest α) × List (PendingRequest α)
  | Cmd.expireStep now =>
    match popMin q with
    | none => ([], q)
    | some (p, rest) =>
      if p.when_expire ≤ now then ([p], rest) else ([], q)
  | Cmd.scrubFor i => scrubSplit i q
  | Cmd.response => ([], q)

/-- The terminal status a command's removals are delivered with:
deadline expiry in doWork, the discard status in scrub. -/
def cmdReason : Cmd → UStatus
  | Cmd.expireStep _ => expireReason
  | Cmd.scrubFor _ => discardReason
  | Cmd.response => expireReason

/-- Accumulated observable state of a run over the shared queue: current
queue contents, every listener handle released so far (releasing
unregisters the transport listener), and every expire invocation emitted
so far. -/
structure RunState (α : Type) where
  queue : List (PendingRequest α)
  released : List ListenHandle
  events : List (α × UStatus)
  deriving DecidableEq, Repr

/-- Execute one command: removed waiters have their listener handles
released (doWork moves the handle out before popping, lines 310-318;
scrub's erase destroys the entries, lines 239-248) and their expire
continuations invoked with the command's terminal status, outside the
lock. -/
def execCmd {α : Type} (s : RunState α) (c : Cmd) : RunState α :=
  match stepOutcome s.queue c with
  | (removed, q1) =>
    { queue := q1
      released := s.released ++ removed.map (fun p => p.response_listener)
      events := s.events ++ removed.map (fun p => (p.expire, cmdReason c)) }

/-- Execute a whole schedule of commands. -/
def execCmds {α : Type} (s : RunState α) : List Cmd → RunState α
  | [] => s
  | c :: rest => execCmds (execCmd s c) rest

/-- Queue teardown at the end of a run: the destructor notifies every
remaining waiter with the "shutting down" status and the container's
destruction releases their listener handles. -/
def finalize {α : Type} (s : RunState α) : RunState α :=
  { queue := []
    released := s.released ++ s.queue.map (fun p => p.response_listener)
    events := s.events ++ queueDtorEvents s.queue }

/-- A complete run: start from an initial queue, execute the schedule,
then tear the queue down. -/
def runSystem {α : Type} (q0 : List (PendingRequest α)) (cmds : List Cmd) :
    RunState α :=
  finalize (execCmds { queue := q0, released := [], events := [] } cmds)

/-- The waiters a whole schedule removes, in removal order, paired with
the queue left at the end. -/
def removedAll {α : Type} (q : List (PendingRequest α)) :
    List Cmd → List (PendingRequest α) × List (PendingRequest α)
  | [] => ([], q)
  | c :: rest =>
    match stepOutcome q c with
    | (r1, q1) =>
      match removedAll q1 rest with
      | (r2, q2) => (r1 ++ r2, q2)

theorem callOnce_called (out : MessageOrStatus) :
    callOnce { called := true } out = ({ called := true }, none) := rfl

theorem runDeliveries_called (l : List Attempt) :
    runDeliveries { called := true } l = [] := by
  induction l with
  | nil => rfl
  | cons a rest ih => simpa [runDeliveries, callOnce] using ih

/-- C1: no matter which and how many delivery paths fire, the continuation
is invoked exactly once, with the first path's outcome; every later
attempt is absorbed by the once flag. -/
theorem invocation_exactly_once (a : Attempt) (rest : List Attempt) :
    runDeliveries { called := false } (a :: rest) = [outcomeOf a] := by
  simp [runDeliveries, callOnce, runDeliveries_called]

theorem popMin_eq_none {α : Type} {q : List (PendingRequest α)}
    (h : popMin q = none) : q = [] := by
  cases q with
  | nil => rfl
  | cons p rest =>
    cases hr : popMin rest with
    | none => simp [popMin, hr] at h
    | some pr =>
      obtain ⟨q1, rest1⟩ := pr
      simp only [popMin, hr] at h
      split at h <;> simp at h

theorem popMin_perm {α : Type} {q : List (PendingRequest α)}
    {p : PendingRequest α} {rest : List (PendingRequest α)}
    (h : popMin q = some (p, rest)) : q.Perm (p :: rest) := by
  induction q generalizing p rest with
  | nil => simp [popMin] at h
  | cons p0 rest0 ih =>
    cases hr : popMin rest0 with
    | none =>
      have : rest0 = [] := popMin_eq_none hr
      subst this
      simp only [popMin] at h
      simp only [Option.some.injEq, Prod.mk.injEq] at h
      obtain ⟨rfl, rfl⟩ := h
      exact List.Perm.refl _
    | some pr =>
      obtain ⟨q1, rest1⟩ := pr
      have hperm : rest0.Perm (q1 :: rest1) := ih hr
      simp only [popMin, hr] at h
      split at h
      · simp only [Option.some.injEq, Prod.mk.injEq] at h
        obtain ⟨rfl, rfl⟩ := h
        exact List.Perm.refl _
      · simp only [Option.some.injEq, Prod.mk.injEq] at h
        obtain ⟨rfl, rfl⟩ := h
        exact (hperm.cons p0).trans (List.Perm.swap q1 p0 rest1)

theorem popMin_min {α : Type} {q : List (PendingRequest α)}
    {p : PendingRequest α} {rest : List (PendingRequest α)}
    (h : popMin q = some (p, rest)) :
    ∀ x ∈ q, p.when_expire ≤ x.when_expire := by
  induction q generalizing p rest with
  | nil => simp [popMin] at h
  | cons p0 rest0 ih =>
    cases hr : popMin rest0 with
    | none =>
      have : rest0 = [] := popMin_eq_none hr
      subst this
      simp only [popMin] at h
      simp only [Option.some.injEq, Prod.mk.injEq] at h
      obtain ⟨rfl, rfl⟩ := h
      intro x hx
      simp only [List.mem_singleton] at hx
      exact hx ▸ Nat.le_refl _
    | some pr =>
      obtain ⟨q1, rest1⟩ := pr
      have hmin : ∀ x ∈ rest0, q1.when_expire ≤ x.when_expire := ih hr
      simp only [popMin, hr] at h
      split at h
      case isTrue hle =>
        simp only [Option.some.injEq, Prod.mk.injEq] at h
        obtain ⟨rfl, rfl⟩ := h
        intro x hx
        rcases List.mem_cons.mp hx with hx | hx
        · exact hx ▸ Nat.le_refl _
        · exact Nat.le_trans hle (hmin x hx)
      case isFalse hgt =>
        simp only [Option.some.injEq, Prod.mk.injEq] at h
        obtain ⟨rfl, rfl⟩ := h
        intro x hx
        rcases List.mem_cons.mp hx with hx | hx
        · exact hx ▸ Nat.le_of_lt (Nat.lt_of_not_le hgt)
        · exact hmin x hx

theorem popMin_length {α : Type} {q : List (PendingRequest α)}
    {p : PendingRequest α} {rest : List (PendingRequest α)}
    (h : popMin q = some (p, rest)) : q.length = rest.length + 1 :=
  (popMin_perm h).length_eq

theorem doWorkAux_perm {α : Type} :
    ∀ (n : Nat) (q : List (PendingRequest α)), q.length ≤ n →
      (doWorkAux n q).Perm q := by
  intro n
  induction n with
  | zero =>
    intro q hq
    have : q = [] := List.length_eq_zero.mp (Nat.le_zero.mp hq)
    subst this
    exact List.Perm.refl _
  | succ n ih =>
    intro q hq
    cases hp : popMin q with
    | none =>
      have : q = [] := popMin_eq_none hp
      subst this
      simp [doWorkAux, popMin]
    | some pr =>
      obtain ⟨p, rest⟩ := pr
      have hlen : q.length = rest.length + 1 := popMin_length hp
      have hrest : rest.length ≤ n := by omega
      have : (doWorkAux (n + 1) q) = p :: doWorkAux n rest := by
        simp [doWorkAux, hp]
      rw [this]
      exact ((ih rest hrest).cons p).trans (popMin_perm hp).symm

theorem doWork_perm {α : Type} (q : List (PendingRequest α)) :
    (doWork q).Perm q :=
  doWorkAux_perm q.length q (Nat.le_refl _)

theorem doWorkAux_sorted {α : Type} :
    ∀ (n : Nat) (q : List (PendingRequest α)), q.length ≤ n →
      (doWorkAux n q).Pairwise
        (fun a b => a.when_expire ≤ b.when_expire) := by
  intro n
  induction n with
  | zero => intro q _; simp [doWorkAux]
  | succ n ih =>
    intro q hq
    cases hp : popMin q with
    | none => simp [doWorkAux, hp]
    | some pr =>
      obtain ⟨p, rest⟩ := pr
      have hlen : q.length = rest.length + 1 := popMin_length hp
      have hrest : rest.length ≤ n := by omega
      have heq : (doWorkAux (n + 1) q) = p :: doWorkAux n rest := by
        simp [doWorkAux, hp]
      rw [heq]
      refine List.Pairwise.cons ?_ (ih rest hrest)
      intro x hx
      have hx' : x ∈ rest := (doWorkAux_perm n rest hrest).mem_iff.mp hx
      have : x ∈ q := (popMin_perm hp).mem_iff.mpr (List.mem_cons_of_mem _ hx')
      exact popMin_min hp x this

theorem doWork_sorted {α : Type} (q : List (PendingRequest α)) :
    (doWork q).Pairwise (fun a b => a.when_expire ≤ b.when_expire) :=
  doWorkAux_sorted q.length q (Nat.le_refl _)

/-- C2: with no response and no cancellation, the expiration worker fires
waiters with deadlines d1 < d2 < d3, inserted in any order, exactly in the
order d1, d2, d3; and in general the firing order of the drain is
non-decreasing in deadline. -/
theorem deadline_ordering (w1 w2 w3 : PendingRequest Nat)
    (q : List (PendingRequest Nat))
    (h12 : w1.when_expire < w2.when_expire)
    (h23 : w2.when_expire < w3.when_expire)
    (hq : q.Perm [w1, w2, w3]) :
    ((doWork q).map (fun p => p.when_expire) =
      [w1.when_expire, w2.when_expire, w3.when_expire])
    ∧ ∀ (r : List (PendingRequest Nat)),
        ((doWork r).map (fun p => p.when_expire)).Sorted (· ≤ ·) := by
  constructor
  · have hperm : ((doWork q).map (fun p => p.when_expire)).Perm
        ([w1, w2, w3].map (fun p => p.when_expire)) :=
      ((doWork_perm q).trans hq).map _
    have hs1 : ((doWork q).map (fun p => p.when_expire)).Sorted (· ≤ ·) :=
      List.pairwise_map.mpr (doWork_sorted q)
    have hs2 : ([w1, w2, w3].map
        (fun p => p.when_expire)).Sorted (· ≤ ·) := by
      simp only [List.map_cons, List.map_nil]
      refine List.pairwise_cons.mpr ⟨?_, ?_⟩
      · intro x hx
        rcases List.mem_cons.mp hx with rfl | hx
        · exact Nat.le_of_lt h12
        · rcases List.mem_singleton.mp hx with rfl
          exact Nat.le_of_lt (Nat.lt_trans h12 h23)
      · refine List.pairwise_cons.mpr ⟨?_, List.pairwise_singleton _ _⟩
        intro x hx
        rcases List.mem_singleton.mp hx with rfl
        exact Nat.le_of_lt h23
    simpa using List.eq_of_perm_of_sorted hperm hs1 hs2
  · intro r
    exact List.pairwise_map.mpr (doWork_sorted r)

/-- Witness for C2 at a concrete scramble of three deadlines. -/
theorem deadline_ordering_witness :
    ((doWork [⟨30, ⟨2⟩, 2, 0⟩, ⟨10, ⟨0⟩, 0, 0⟩, ⟨20, ⟨1⟩, 1, 0⟩]).map
      (fun p => p.when_expire) = [10, 20, 30]) := by
  have h := deadline_ordering ⟨10, ⟨0⟩, 0, 0⟩ ⟨20, ⟨1⟩, 1, 0⟩ ⟨30, ⟨2⟩, 2, 0⟩
    [⟨30, ⟨2⟩, 2, 0⟩, ⟨10, ⟨0⟩, 0, 0⟩, ⟨20, ⟨1⟩, 1, 0⟩]
    (by decide) (by decide) (by decide)
  exact h.1

/-- C3: if listener registration fails, the invocation resolves
immediately through the one-shot guard with the registration error, the
request is never sent, and no waiter is handed to the expiration
service. -/
theorem registration_failure_short_circuits
    (e s : UStatus) (now ttl instanceId cbTok : Nat) :
    invokeMethod (Except.error e) s now ttl instanceId cbTok =
      { delivered := [MessageOrStatus.unexpected (Reason.uStatus e)]
        sent := false
        enqueued := none
        flagAfter := { called := true } } := rfl

/-- C4: when registration succeeds but transport send returns a non-OK
status, that status is delivered through the one-shot guard as a terminal
error, and a waiter carrying the listener handle and the expire
continuation is still enqueued with deadline now + ttl; indeed a waiter is
armed regardless of the send outcome. -/
theorem send_failure_still_arms (h : ListenHandle) (s : UStatus)
    (now ttl instanceId cbTok : Nat) (hs : s.code ≠ UCode.OK) :
    ((invokeMethod (Except.ok h) s now ttl instanceId cbTok).delivered =
        [MessageOrStatus.unexpected (Reason.uStatus s)])
    ∧ ((invokeMethod (Except.ok h) s now ttl instanceId cbTok).enqueued =
        some { when_expire := now + ttl, response_listener := h
               expire := cbTok, instance_id := instanceId })
    ∧ (∀ (s2 : UStatus),
        ((invokeMethod (Except.ok h) s2 now ttl instanceId
          cbTok).enqueued).isSome) := by
  refine ⟨?_, ?_, ?_⟩
  · simp [invokeMethod, callOnce, hs]
  · simp [invokeMethod, callOnce, hs]
  · intro s2
    by_cases h2 : s2.code = UCode.OK <;> simp [invokeMethod, callOnce, h2]

/-- Witness for C4 at a concrete failing send status. -/
theorem send_failure_still_arms_witness :
    (invokeMethod (Except.ok ⟨5⟩) ⟨UCode.INTERNAL, "send failed"⟩
        1 10 2 3).enqueued =
      some { when_expire := 11, response_listener := ⟨5⟩
             expire := 3, instance_id := 2 } :=
  (send_failure_still_arms ⟨5⟩ ⟨UCode.INTERNAL, "send failed"⟩
    1 10 2 3 (by decide)).2.1

/-- C7: the registered wrapper ignores messages whose reqid does not match
the outgoing request's id; on a match it delivers the message itself when
the embedded commstatus is OK and delivers that commstatus as an error
otherwise. -/
theorem listener_filters_and_checks_commstatus (reqid : Nat) (m : UMessage) :
    (m.attributes.reqid ≠ reqid →
      ∀ (flag : OnceFlag), wrapper flag reqid m = (flag, none))
    ∧ (m.attributes.reqid = reqid → m.attributes.commstatus = UCode.OK →
        wrapper { called := false } reqid m =
          ({ called := true }, some (MessageOrStatus.message m)))
    ∧ (m.attributes.reqid = reqid → m.attributes.commstatus ≠ UCode.OK →
        wrapper { called := false } reqid m =
          ({ called := true },
           some (MessageOrStatus.unexpected
             (Reason.commstatus m.attributes.commstatus)))) := by
  refine ⟨?_, ?_, ?_⟩
  · intro hne flag
    simp [wrapper, hne]
  · intro heq hok
    simp [wrapper, heq, hok, callOnce]
  · intro heq hne
    simp [wrapper, heq, hne, callOnce]

/-- Witness for C7: a non-matching reqid produces no continuation call. -/
theorem listener_filters_witness :
    wrapper { called := false } 1 ⟨⟨0, 2, UCode.OK⟩⟩ =
      ({ called := false }, none) :=
  (listener_filters_and_checks_commstatus 1 ⟨⟨0, 2, UCode.OK⟩⟩).1
    (by decide) { called := false }

theorem scrubSplit_fst_eq_filter (i : Nat) (q : List (PendingRequest Nat)) :
    (scrubSplit i q).1 = q.filter (fun p => p.instance_id == i) := by
  induction q with
  | nil => rfl
  | cons p rest ih =>
    by_cases hp : p.instance_id = i <;>
      simp [scrubSplit, List.filter_cons, hp, ih]

theorem scrubSplit_snd_eq_filter (i : Nat) (q : List (PendingRequest Nat)) :
    (scrubSplit i q).2 = q.filter (fun p => p.instance_id != i) := by
  induction q with
  | nil => rfl
  | cons p rest ih =>
    by_cases hp : p.instance_id = i <;>
      simp [scrubSplit, List.filter_cons, hp, ih]

/-- C5: scrubbing one instance's waiters removes exactly the waiters whose
instance_id matches, resolving each with the "discarded" status, while
every waiter of any other instance stays in the queue unchanged (in its
original relative order) and is still retired later by the worker's
drain. -/
theorem scoped_cancellation (i : Nat) (q : List (PendingRequest Nat)) :
    ((scrub i q).2 = q.filter (fun p => p.instance_id != i))
    ∧ ((scrub i q).1 = (q.filter (fun p => p.instance_id == i)).map
        (fun p => (p.expire, discardReason)))
    ∧ (∀ p ∈ q, p.instance_id = i →
        (p.expire, discardReason) ∈ (scrub i q).1)
    ∧ (∀ p ∈ (scrub i q).2, p.instance_id ≠ i ∧ p ∈ q)
    ∧ (∀ p ∈ (scrub i q).2, (p.expire, expireReason) ∈
        (doWork (scrub i q).2).map (fun x => (x.expire, expireReason))) := by
  refine ⟨?_, ?_, ?_, ?_, ?_⟩
  · simp [scrub, scrubSplit_snd_eq_filter]
  · simp [scrub, scrubSplit_fst_eq_filter]
  · intro p hp hpi
    simp only [scrub, scrubSplit_fst_eq_filter]
    exact List.mem_map_of_mem _ (List.mem_filter.mpr ⟨hp, by simp [hpi]⟩)
  · intro p hp
    simp only [scrub, scrubSplit_snd_eq_filter] at hp
    have := List.mem_filter.mp hp
    refine ⟨by simpa using this.2, this.1⟩
  · intro p hp
    exact List.mem_map_of_mem _ ((doWork_perm _).mem_iff.mpr hp)

/-- Witness for C5: with one waiter of instance 0 and one of instance 1,
scrubbing instance 0 emits exactly its discard event and keeps the
other waiter. -/
theorem scoped_cancellation_witness :
    (7, discardReason) ∈ (scrub 0 [⟨10, ⟨1⟩, 7, 0⟩, ⟨20, ⟨2⟩, 8, 1⟩]).1
    ∧ (scrub 0 [⟨10, ⟨1⟩, (7 : Nat), 0⟩, ⟨20, ⟨2⟩, 8, 1⟩]).2 =
        [⟨20, ⟨2⟩, 8, 1⟩] :=
  ⟨(scoped_cancellation 0 [⟨10, ⟨1⟩, 7, 0⟩, ⟨20, ⟨2⟩, 8, 1⟩]).2.2.1
      ⟨10, ⟨1⟩, 7, 0⟩ (by simp) rfl,
   by
    have h := (scoped_cancellation 0
      [⟨10, ⟨1⟩, (7 : Nat), 0⟩, ⟨20, ⟨2⟩, 8, 1⟩]).1
    simpa using h⟩

/-- C6: destroying the deadline queue notifies every waiter still pending
— whatever its owner instance — with the "shutting down" status (code
CANCELLED, message "ExpireWorker shutting down"); no pending waiter is
dropped, and after teardown the queue is empty. -/
theorem shutdown_drains_all (q : List (PendingRequest Nat)) :
    ((queueDtorEvents q).length = q.length)
    ∧ (∀ p ∈ q, (p.expire, shutdownReason) ∈ queueDtorEvents q)
    ∧ (∀ e ∈ queueDtorEvents q,
        e.2.code = UCode.CANCELLED
        ∧ e.2.message = "ExpireWorker shutting down")
    ∧ (∀ (s : RunState Nat),
        (finalize s).events = s.events ++ queueDtorEvents s.queue
        ∧ (finalize s).queue = []) := by
  refine ⟨?_, ?_, ?_, ?_⟩
  · simp [queueDtorEvents]
  · intro p hp
    exact List.mem_map_of_mem _ hp
  · intro e he
    simp only [queueDtorEvents, List.mem_map] at he
    obtain ⟨p, _, rfl⟩ := he
    exact ⟨rfl, rfl⟩
  · intro s
    exact ⟨rfl, rfl⟩

/-- Witness for C6 with two waiters from different instances. -/
theorem shutdown_drains_all_witness :
    ((3 : Nat), shutdownReason) ∈
      queueDtorEvents [⟨10, ⟨1⟩, 3, 0⟩, ⟨20, ⟨2⟩, 4, 1⟩] :=
  (shutdown_drains_all [⟨10, ⟨1⟩, 3, 0⟩, ⟨20, ⟨2⟩, 4, 1⟩]).2.1
    ⟨10, ⟨1⟩, 3, 0⟩ (by simp)

/-- C10: the "discarded" and "shutting down" terminal statuses share the
status code CANCELLED and differ only in their message strings, so a
caller cannot tell them apart by code; deadline expiry carries the
distinct code DEADLINE_EXCEEDED. -/
theorem cancellation_codes_indistinguishable :
    discardReason.code = UCode.CANCELLED
    ∧ shutdownReason.code = UCode.CANCELLED
    ∧ discardReason.code = shutdownReason.code
    ∧ discardReason.message ≠ shutdownReason.message
    ∧ expireReason.code = UCode.DEADLINE_EXCEEDED
    ∧ expireReason.code ≠ discardReason.code := by
  refine ⟨rfl, rfl, rfl, ?_, rfl, by decide⟩
  decide

theorem scrubSplit_perm {α : Type} (i : Nat)
    (q : List (PendingRequest α)) :
    ((scrubSplit i q).1 ++ (scrubSplit i q).2).Perm q := by
  induction q with
  | nil => simp [scrubSplit]
  | cons p rest ih =>
    by_cases hp : p.instance_id = i
    · simpa [scrubSplit, hp] using ih.cons p
    · simp only [scrubSplit, hp, if_false]
      exact List.perm_middle.trans (ih.cons p)

theorem stepOutcome_perm {α : Type} (q : List (PendingRequest α))
    (c : Cmd) :
    ((stepOutcome q c).1 ++ (stepOutcome q c).2).Perm q := by
  cases c with
  | expireStep now =>
    cases hp : popMin q with
    | none => simp [stepOutcome, hp]
    | some pr =>
      obtain ⟨p, rest⟩ := pr
      by_cases hd : p.when_expire ≤ now
      · simpa [stepOutcome, hp, hd] using (popMin_perm hp).symm
      · simp [stepOutcome, hp, hd]
  | scrubFor i => exact scrubSplit_perm i q
  | response => simp [stepOutcome]

theorem removedAll_cons {α : Type} (q : List (PendingRequest α))
    (c : Cmd) (rest : List Cmd) :
    removedAll q (c :: rest) =
      ((stepOutcome q c).1 ++ (removedAll (stepOutcome q c).2 rest).1,
       (removedAll (stepOutcome q c).2 rest).2) := by
  cases h : stepOutcome q c with
  | mk r1 q1 =>
    cases h2 : removedAll q1 rest with
    | mk r2 q2 => simp [removedAll, h, h2]

theorem execCmd_fields {α : Type} (s : RunState α) (c : Cmd) :
    (execCmd s c).queue = (stepOutcome s.queue c).2
    ∧ (execCmd s c).released = s.released ++
        (stepOutcome s.queue c).1.map (fun p => p.response_listener)
    ∧ (execCmd s c).events = s.events ++
        (stepOutcome s.queue c).1.map (fun p => (p.expire, cmdReason c)) := by
  cases h : stepOutcome s.queue c with
  | mk r q1 => simp [execCmd, h]

theorem removedAll_perm {α : Type} :
    ∀ (cmds : List Cmd) (q : List (PendingRequest α)),
      ((removedAll q cmds).1 ++ (removedAll q cmds).2).Perm q := by
  intro cmds
  induction cmds with
  | nil => intro q; simp [removedAll]
  | cons c rest ih =>
    intro q
    have hstep := stepOutcome_perm q c
    have hrest := ih (stepOutcome q c).2
    rw [removedAll_cons, List.append_assoc]
    exact ((List.Perm.append_left _ hrest).trans hstep)

theorem execCmds_queue {α : Type} :
    ∀ (cmds : List Cmd) (s : RunState α),
      (execCmds s cmds).queue = (removedAll s.queue cmds).2 := by
  intro cmds
  induction cmds with
  | nil => intro s; simp [execCmds, removedAll]
  | cons c rest ih =>
    intro s
    have h := ih (execCmd s c)
    rw [removedAll_cons]
    simpa [(execCmd_fields s c).1] using h

theorem execCmds_released {α : Type} :
    ∀ (cmds : List Cmd) (s : RunState α),
      (execCmds s cmds).released =
        s.released ++ (removedAll s.queue cmds).1.map
          (fun p => p.response_listener) := by
  intro cmds
  induction cmds with
  | nil => intro s; simp [execCmds, removedAll]
  | cons c rest ih =>
    intro s
    have h := ih (execCmd s c)
    rw [removedAll_cons]
    show (execCmds (execCmd s c) rest).released = _
    rw [h, (execCmd_fields s c).2.1, (execCmd_fields s c).1,
      List.map_append, List.append_assoc]

theorem execCmds_events_fst {α : Type} :
    ∀ (cmds : List Cmd) (s : RunState α),
      (execCmds s cmds).events.map Prod.fst =
        s.events.map Prod.fst ++ (removedAll s.queue cmds).1.map
          (fun p => p.expire) := by
  intro cmds
  induction cmds with
  | nil => intro s; simp [execCmds, removedAll]
  | cons c rest ih =>
    intro s
    have h := ih (execCmd s c)
    rw [removedAll_cons]
    show (execCmds (execCmd s c) rest).events.map Prod.fst = _
    rw [h, (execCmd_fields s c).2.2, (execCmd_fields s c).1,
      List.map_append, List.map_append, List.map_map, List.append_assoc]
    rfl

/-- C8 counterexample: a matching response does not release the listener
handle.  With a single waiter (deadline 100, handle 7) in the queue, the
response path leaves the waiter — and its handle — in the queue, and
releases nothing: the listener stays registered waiting for the deadline,
contradicting the claim that after a successful response it does not. -/
theorem response_keeps_listener_registered :
    ((execCmd { queue := [⟨100, ⟨7⟩, (0 : Nat), 0⟩], released := []
                events := [] } Cmd.response).queue
      = [⟨100, ⟨7⟩, (0 : Nat), 0⟩])
    ∧ ¬ (ListenHandle.mk 7 ∈
        (execCmd { queue := [⟨100, ⟨7⟩, (0 : Nat), 0⟩], released := []
                   events := [] } Cmd.response).released) := by
  constructor
  · rfl
  · decide

/-- C8 (amended): over a complete run of the shared queue, every waiter's
listener handle is released exactly once — at deadline expiry, scoped
cancellation, or queue teardown — and the response path releases nothing
(the listener stays registered until one of those events). -/
theorem listener_released_exactly_once
    (q0 : List (PendingRequest Nat)) (cmds : List Cmd) :
    (((runSystem q0 cmds).released).Perm
      (q0.map (fun p => p.response_listener)))
    ∧ (∀ (s : RunState Nat), execCmd s Cmd.response = s) := by
  constructor
  · show ((finalize (execCmds
      { queue := q0, released := [], events := [] } cmds)).released).Perm _
    simp only [finalize, execCmds_released, execCmds_queue]
    rw [List.nil_append, ← List.map_append]
    exact (removedAll_perm cmds q0).map _
  · intro s
    cases s
    simp [execCmd, stepOutcome]

/-- C9: a waiter's on_expire fires at most once (over a complete run with
distinct continuations, each fires exactly once, hence never twice), and
at every point where a step fires on_expire — worker expiry, scoped
cancellation, or teardown — the waiter is no longer in the queue after
that step. -/
theorem on_expire_at_most_once
    (q0 : List (PendingRequest Nat)) (cmds : List Cmd)
    (hnodup : (q0.map (fun p => p.expire)).Nodup) :
    (((runSystem q0 cmds).events.map Prod.fst).Nodup)
    ∧ (((runSystem q0 cmds).events.map Prod.fst).Perm
        (q0.map (fun p => p.expire)))
    ∧ (∀ (q : List (PendingRequest Nat)) (c : Cmd),
        (q.map (fun p => p.expire)).Nodup →
        ∀ p ∈ (stepOutcome q c).1,
          p.expire ∉ (stepOutcome q c).2.map (fun x => x.expire)) := by
  have hperm : ((runSystem q0 cmds).events.map Prod.fst).Perm
      (q0.map (fun p => p.expire)) := by
    show ((finalize (execCmds
      { queue := q0, released := [], events := [] } cmds)).events.map
        Prod.fst).Perm _
    simp only [finalize, queueDtorEvents, List.map_append,
      execCmds_events_fst, execCmds_queue, List.map_map]
    rw [List.map_nil, List.nil_append]
    show ((removedAll q0 cmds).1.map (fun p => p.expire) ++
      (removedAll q0 cmds).2.map
        (Prod.fst ∘ fun p => (p.expire, shutdownReason))).Perm _
    rw [show (Prod.fst ∘ fun p : PendingRequest Nat =>
      (p.expire, shutdownReason)) = fun p => p.expire from rfl,
      ← List.map_append]
    exact (removedAll_perm cmds q0).map _
  refine ⟨hperm.nodup_iff.mpr hnodup, hperm, ?_⟩
  intro q c hq p hp
  cases c with
  | expireStep now =>
    cases hpm : popMin q with
    | none => simp [stepOutcome, hpm] at hp
    | some pr =>
      obtain ⟨w, rest⟩ := pr
      by_cases hd : w.when_expire ≤ now
      · simp only [stepOutcome, hpm, hd, if_true, List.mem_singleton] at hp
        subst hp
        have hqperm : (q.map (fun x => x.expire)).Perm
            (p.expire :: rest.map (fun x => x.expire)) :=
          (popMin_perm hpm).map _
        have hnd := hqperm.nodup_iff.mp hq
        simp only [stepOutcome, hpm, hd, if_true]
        exact (List.nodup_cons.mp hnd).1
      · simp [stepOutcome, hpm, hd] at hp
  | scrubFor i =>
    have hsperm : (((scrubSplit i q).1 ++ (scrubSplit i q).2).map
        (fun x => x.expire)).Perm (q.map (fun x => x.expire)) :=
      (scrubSplit_perm i q).map _
    have hnd : (((scrubSplit i q).1 ++ (scrubSplit i q).2).map
        (fun x => x.expire)).Nodup := hsperm.nodup_iff.mpr hq
    rw [List.map_append] at hnd
    have hdisj := (List.nodup_append.mp hnd).2.2
    simp only [stepOutcome] at hp ⊢
    exact fun hmem => hdisj (List.mem_map_of_mem _ hp) hmem
  | response => simp [stepOutcome] at hp

/-- Witness for C9: two waiters with distinct continuations, one worker
step retiring the earlier one, then teardown — no continuation token
appears twice. -/
theorem on_expire_at_most_once_witness :
    ((runSystem [⟨10, ⟨1⟩, (3 : Nat), 0⟩, ⟨20, ⟨2⟩, 4, 1⟩]
      [Cmd.expireStep 15]).events.map Prod.fst).Nodup :=
  (on_expire_at_most_once [⟨10, ⟨1⟩, 3, 0⟩, ⟨20, ⟨2⟩, 4, 1⟩]
    [Cmd.expireStep 15] (by decide)).1
